import Mathlib

/-!
# Hotel guests application — core model and verification

A shallow embedding of the booking/room manager of `main_perfect.py`:
the `Booking` entity, the `HotelManager` state, its mutating operations
(`check_in`, `check_out`, `mark_room_under_maintenance`,
`mark_room_repaired`, `clear_checked_out_bookings`), its read accessors,
and the persistence layer (`to_dict` / `from_dict` / `load_data`).

Timestamps are modelled as integers (`datetime` values compare totally
and the code only compares them); the JSON dictionaries read and written
by the persistence layer are modelled as structures of `Option` fields,
where `none` means the key is missing from the record.
-/

namespace HotelApp

/-- One guest stay record, mirroring the fields set by `Booking.__init__`
and mutated by `HotelManager.check_out`. -/
structure Booking where
  booking_id : Nat
  check_in : Int
  check_out : Option Int
  num_guests : Nat
  room_id : Nat
  is_paid : Bool
  checkout_reason : Option String
  checkout_notes : Option String
deriving DecidableEq, Repr

/-- The manager state: bookings ledger, id counter, available and
maintenance room lists (Python lists, order and duplicates preserved). -/
structure HotelManager where
  bookings : List Booking
  next_id : Nat
  available_rooms : List Nat
  maintenance_rooms : List Nat
deriving DecidableEq, Repr

/-- `HotelManager.__init__`: empty ledger, counter 1, rooms 1..50
available, no maintenance rooms. -/
def initHotelManager : HotelManager :=
  { bookings := []
    next_id := 1
    available_rooms := List.range' 1 50
    maintenance_rooms := [] }

/-- `HotelManager.check_in`: rejects a room that is not available (or is
under maintenance); otherwise appends a fresh booking, removes the room
from the available list (first occurrence, as Python `list.remove`), and
increments the counter. The raised `ValueError` is modelled as
`Except.error`. -/
def HotelManager.check_in (s : HotelManager) (num_guests : Nat)
    (check_in_dt : Int) (room_id : Nat) (paid : Bool) :
    Except String HotelManager :=
  if room_id ∉ s.available_rooms ∨ room_id ∈ s.maintenance_rooms then
    Except.error "Room ID is not available."
  else
    Except.ok
      { s with
        bookings := s.bookings ++
          [{ booking_id := s.next_id
             check_in := check_in_dt
             check_out := none
             num_guests := num_guests
             room_id := room_id
             is_paid := paid
             checkout_reason := none
             checkout_notes := none }]
        available_rooms := s.available_rooms.erase room_id
        next_id := s.next_id + 1 }

/-- The checkout update applied to the matched booking by
`HotelManager.check_out`. -/
def checkoutUpdate (b : Booking) (check_out_dt : Int) (reason : String)
    (notes : Option String) : Booking :=
  { b with
    check_out := some check_out_dt
    checkout_reason := some reason
    checkout_notes := notes }

/-- The scan of the `for booking in self.bookings` loop inside
`check_out`: find the first booking with the given id; on a valid
checkout return the updated list together with the booking's room id;
on an invalid first match, or no match, return `none` (the loop
`return False` paths). -/
def checkOutList (bs : List Booking) (booking_id : Nat)
    (check_out_dt : Int) (reason : String) (notes : Option String) :
    Option (List Booking × Nat) :=
  match bs with
  | [] => none
  | b :: rest =>
    if b.booking_id = booking_id then
      if b.check_out = none ∧ check_out_dt > b.check_in then
        some (checkoutUpdate b check_out_dt reason notes :: rest, b.room_id)
      else none
    else
      match checkOutList rest booking_id check_out_dt reason notes with
      | some (rest2, room) => some (b :: rest2, room)
      | none => none

/-- `HotelManager.check_out`: on success the booking is updated and its
room id appended to the available list; otherwise the state is returned
unchanged with `false`. -/
def HotelManager.check_out (s : HotelManager) (booking_id : Nat)
    (check_out_dt : Int) (reason : String) (notes : Option String) :
    HotelManager × Bool :=
  match checkOutList s.bookings booking_id check_out_dt reason notes with
  | some (bs2, room) =>
    ({ s with bookings := bs2, available_rooms := s.available_rooms ++ [room] }, true)
  | none => (s, false)

/-- `HotelManager.mark_room_under_maintenance`: move an available room to
the maintenance list; silently a no-op otherwise. -/
def HotelManager.mark_room_under_maintenance (s : HotelManager)
    (room_id : Nat) : HotelManager :=
  if room_id ∈ s.available_rooms then
    { s with
      available_rooms := s.available_rooms.erase room_id
      maintenance_rooms := s.maintenance_rooms ++ [room_id] }
  else s

/-- `HotelManager.mark_room_repaired`: move a maintenance room back to
the available list; silently a no-op otherwise. -/
def HotelManager.mark_room_repaired (s : HotelManager) (room_id : Nat) :
    HotelManager :=
  if room_id ∈ s.maintenance_rooms then
    { s with
      maintenance_rooms := s.maintenance_rooms.erase room_id
      available_rooms := s.available_rooms ++ [room_id] }
  else s

/-- `HotelManager.get_current_bookings`: the bookings whose
`check_out` is `None`, in ledger order. -/
def HotelManager.get_current_bookings (s : HotelManager) : List Booking :=
  s.bookings.filter (fun b => b.check_out.isNone)

/-- `HotelManager.get_checked_out_bookings`: the bookings whose
`check_out` is set, in ledger order. -/
def HotelManager.get_checked_out_bookings (s : HotelManager) : List Booking :=
  s.bookings.filter (fun b => b.check_out.isSome)

/-- `HotelManager.get_total_guests`: sum of guest counts over the
current bookings. -/
def HotelManager.get_total_guests (s : HotelManager) : Nat :=
  (s.get_current_bookings.map (fun b => b.num_guests)).sum

/-- The room ids of the current bookings in a ledger — the
comprehension `[b.room_id for b in bookings if b.check_out is None]`
inside `get_unavailable_rooms`. -/
def occOf (bs : List Booking) : List Nat :=
  (bs.filter (fun b => b.check_out.isNone)).map (fun b => b.room_id)

/-- The derived occupied set of a manager state. -/
def HotelManager.occupied_rooms (s : HotelManager) : List Nat :=
  occOf s.bookings

/-- `HotelManager.get_unavailable_rooms`: occupied room ids followed by
the maintenance rooms. -/
def HotelManager.get_unavailable_rooms (s : HotelManager) : List Nat :=
  s.occupied_rooms ++ s.maintenance_rooms

/-- `HotelManager.clear_checked_out_bookings`: remove each checked-out
booking from the ledger with Python `list.remove` (first equal
occurrence), and return the number of removed bookings. -/
def HotelManager.clear_checked_out_bookings (s : HotelManager) :
    HotelManager × Nat :=
  let checked_out := s.get_checked_out_bookings
  ({ s with bookings := List.foldl List.erase s.bookings checked_out },
   checked_out.length)

/-- A persisted booking record (`Booking.to_dict` shape); each field is
`none` when the key is missing from the record. `check_out?` is
`some none` when the key is present with a null value. For
`checkout_reason?` and `checkout_notes?` (read with `dict.get`) a
missing key and a null value are both modelled as `none`. -/
structure BookingDict where
  booking_id? : Option Nat
  check_in? : Option Int
  num_guests? : Option Nat
  room_id? : Option Nat
  check_out? : Option (Option Int)
  is_paid? : Option Bool
  checkout_reason? : Option String
  checkout_notes? : Option String
deriving DecidableEq, Repr

/-- `Booking.to_dict`: serialize every field; absent optional values are
written as explicit nulls. -/
def Booking.to_dict (b : Booking) : BookingDict :=
  { booking_id? := some b.booking_id
    check_in? := some b.check_in
    num_guests? := some b.num_guests
    room_id? := some b.room_id
    check_out? := some b.check_out
    is_paid? := some b.is_paid
    checkout_reason? := b.checkout_reason
    checkout_notes? := b.checkout_notes }

/-- `Booking.from_dict`: the bracket accesses (`booking_id`, `check_in`,
`num_guests`, `room_id`, `check_out`) raise `KeyError` on a missing key
(modelled as `none`); `is_paid` defaults to `false`; the remaining
fields are read with `dict.get`. -/
def Booking.from_dict (d : BookingDict) : Option Booking :=
  match d.booking_id?, d.check_in?, d.num_guests?, d.room_id?, d.check_out? with
  | some bid, some ci, some ng, some rid, some co =>
    some
      { booking_id := bid
        check_in := ci
        check_out := co
        num_guests := ng
        room_id := rid
        is_paid := d.is_paid?.getD false
        checkout_reason := d.checkout_reason?
        checkout_notes := d.checkout_notes? }
  | _, _, _, _, _ => none

/-- A persisted snapshot (`save_data` shape); each field is `none` when
the key is missing. -/
structure DataFile where
  next_id? : Option Nat
  available_rooms? : Option (List Nat)
  maintenance_rooms? : Option (List Nat)
  bookings? : Option (List BookingDict)
deriving DecidableEq, Repr

/-- The comprehension `[Booking.from_dict(b) for b in data.get("bookings", [])]`:
it yields all parsed bookings, or fails as a whole when any single
record fails to parse (the first bad record raises). -/
def parseBookings : List BookingDict → Option (List Booking)
  | [] => some []
  | d :: rest =>
    match Booking.from_dict d, parseBookings rest with
    | some b, some bs => some (b :: bs)
    | _, _ => none

/-- `HotelManager.load_data`: `none` content stands for a source whose
bytes do not parse as JSON (or a missing file) — the state is untouched
and `false` returned. With parsed content the code assigns `next_id`,
`available_rooms` and `maintenance_rooms` (with defaults) first, and
only then rebuilds the booking list; when a booking record fails to
parse, the exception is caught and `false` returned, but the three
fields already assigned keep their new values while `bookings` keeps
the prior value. -/
def HotelManager.load_data (s : HotelManager) (content : Option DataFile) :
    HotelManager × Bool :=
  match content with
  | none => (s, false)
  | some d =>
    let s1 :=
      { s with
        next_id := d.next_id?.getD 1
        available_rooms := d.available_rooms?.getD (List.range' 1 50)
        maintenance_rooms := d.maintenance_rooms?.getD [] }
    match parseBookings (d.bookings?.getD []) with
    | some bs => ({ s1 with bookings := bs }, true)
    | none => (s1, false)

/-- The mutating operations of the manager's public surface. -/
inductive Op where
  | checkIn (num_guests : Nat) (check_in_dt : Int) (room_id : Nat) (paid : Bool)
  | checkOut (booking_id : Nat) (check_out_dt : Int) (reason : String) (notes : Option String)
  | maintain (room_id : Nat)
  | repair (room_id : Nat)
  | clear
deriving DecidableEq, Repr

/-- One operation applied to the state; a rejected `check_in` (the
caller catches the `ValueError`) and a failed `check_out` leave the
state unchanged. -/
def step (s : HotelManager) (op : Op) : HotelManager :=
  match op with
  | .checkIn g t r p =>
    match s.check_in g t r p with
    | .ok s2 => s2
    | .error _ => s
  | .checkOut bid t reason notes => (s.check_out bid t reason notes).1
  | .maintain r => s.mark_room_under_maintenance r
  | .repair r => s.mark_room_repaired r
  | .clear => (s.clear_checked_out_bookings).1

/-- The state after a sequence of operations from the initial state. -/
def run (ops : List Op) : HotelManager :=
  ops.foldl step initHotelManager

/-! ## Helper lemmas -/

theorem foldl_erase_cons {α : Type} [DecidableEq α] {p : α → Bool} {x : α}
    (hx : p x = false) :
    ∀ (bs xs : List α), (∀ b ∈ bs, p b = true) →
      List.foldl List.erase (x :: xs) bs = x :: List.foldl List.erase xs bs := by
  intro bs
  induction bs with
  | nil => intro xs _; rfl
  | cons b bs ih =>
    intro xs hall
    have hbx : x ≠ b := by
      intro h
      rw [h] at hx
      exact absurd (hall b (List.mem_cons_self b bs)) (by simp [hx])
    have herase : (x :: xs).erase b = x :: xs.erase b :=
      List.erase_cons_tail (by simpa using hbx)
    simp only [List.foldl_cons, herase]
    exact ih (xs.erase b) (fun c hc => hall c (List.mem_cons_of_mem b hc))

theorem foldl_erase_filter {α : Type} [DecidableEq α] (p : α → Bool) :
    ∀ l : List α,
      List.foldl List.erase l (l.filter p) = l.filter (fun a => !(p a)) := by
  intro l
  induction l with
  | nil => rfl
  | cons x l ih =>
    by_cases hx : p x = true
    · rw [List.filter_cons_of_pos hx, List.foldl_cons, List.erase_cons_head,
        ih, List.filter_cons_of_neg (by simp [hx])]
    · have hx' : p x = false := by simpa using hx
      rw [List.filter_cons_of_neg (by simp [hx']),
        foldl_erase_cons hx' (l.filter p) l
          (fun c hc => (List.mem_filter.mp hc).2),
        ih, List.filter_cons_of_pos (by simp [hx'])]

theorem clear_bookings_eq (s : HotelManager) :
    (s.clear_checked_out_bookings).1.bookings =
      s.bookings.filter (fun b => b.check_out.isNone) := by
  show List.foldl List.erase s.bookings
      (s.bookings.filter (fun b => b.check_out.isSome)) = _
  rw [foldl_erase_filter]
  exact List.filter_congr (fun b _ => by cases b.check_out <;> rfl)

theorem checkOutList_eq_some {bs : List Booking} {bid : Nat} {t : Int}
    {reason : String} {notes : Option String} {bs2 : List Booking} {room : Nat}
    (h : checkOutList bs bid t reason notes = some (bs2, room)) :
    ∃ pre b suf, bs = pre ++ b :: suf ∧
      bs2 = pre ++ checkoutUpdate b t reason notes :: suf ∧
      (∀ x ∈ pre, x.booking_id ≠ bid) ∧
      b.booking_id = bid ∧ b.check_out = none ∧ t > b.check_in ∧
      room = b.room_id := by
  induction bs generalizing bs2 with
  | nil => exact absurd h (by simp [checkOutList])
  | cons x rest ih =>
    rw [checkOutList] at h
    by_cases hid : x.booking_id = bid
    · rw [if_pos hid] at h
      by_cases hok : x.check_out = none ∧ t > x.check_in
      · rw [if_pos hok] at h
        obtain ⟨h1, h2⟩ := Prod.mk.injEq .. ▸ Option.some.inj h
        exact ⟨[], x, rest, rfl, h1.symm, by simp, hid, hok.1, hok.2, h2.symm⟩
      · rw [if_neg hok] at h
        exact absurd h (by simp)
    · rw [if_neg hid] at h
      cases hrec : checkOutList rest bid t reason notes with
      | none => rw [hrec] at h; exact absurd h (by simp)
      | some p =>
        obtain ⟨rest2, room2⟩ := p
        rw [hrec] at h
        obtain ⟨h1, h2⟩ := Prod.mk.injEq .. ▸ Option.some.inj h
        obtain ⟨pre, b, suf, hbs, hbs2, hpre, hb⟩ := ih (by rw [hrec, h2])
        refine ⟨x :: pre, b, suf, by simp [hbs], by simp [← h1, hbs2], ?_, hb⟩
        intro y hy
        rcases List.mem_cons.mp hy with hyx | hyp
        · rw [hyx]; exact hid
        · exact hpre y hyp

theorem checkOutList_found {pre : List Booking} {b : Booking}
    (suf : List Booking) {bid : Nat} {t : Int} (reason : String)
    (notes : Option String) (hpre : ∀ x ∈ pre, x.booking_id ≠ bid)
    (hid : b.booking_id = bid) (hco : b.check_out = none)
    (ht : t > b.check_in) :
    checkOutList (pre ++ b :: suf) bid t reason notes =
      some (pre ++ checkoutUpdate b t reason notes :: suf, b.room_id) := by
  induction pre with
  | nil =>
    have hok : b.check_out = none ∧ t > b.check_in := ⟨hco, ht⟩
    simp only [List.nil_append, checkOutList, if_pos hid, if_pos hok]
  | cons x pre ih =>
    have hx : x.booking_id ≠ bid := hpre x (List.mem_cons_self x pre)
    rw [List.cons_append, checkOutList, if_neg hx,
      ih (fun y hy => hpre y (List.mem_cons_of_mem x hy)), List.cons_append]

theorem checkOutList_isSome_iff {bs : List Booking} {bid : Nat} {t : Int}
    {reason : String} {notes : Option String}
    (hids : (bs.map Booking.booking_id).Nodup) :
    (checkOutList bs bid t reason notes).isSome = true ↔
      ∃ b ∈ bs, b.booking_id = bid ∧ b.check_out = none ∧ t > b.check_in := by
  constructor
  · intro h
    obtain ⟨p, hp⟩ := Option.isSome_iff_exists.mp h
    obtain ⟨bs2, room⟩ := p
    obtain ⟨pre, b, suf, hbs, _, _, hbid, hco, ht, _⟩ := checkOutList_eq_some hp
    exact ⟨b, by rw [hbs]; exact List.mem_append_right pre (List.mem_cons_self b suf),
      hbid, hco, ht⟩
  · intro h
    induction bs with
    | nil => simp at h
    | cons x rest ih =>
      obtain ⟨b, hb, hbid, hco, ht⟩ := h
      rw [checkOutList]
      by_cases hid : x.booking_id = bid
      · have hbx : b = x := by
          rcases List.mem_cons.mp hb with hbx | hbr
          · exact hbx
          · exfalso
            have : bid ∈ rest.map Booking.booking_id :=
              hbid ▸ List.mem_map_of_mem Booking.booking_id hbr
            rw [← hid] at this
            exact (List.nodup_cons.mp (by simpa using hids)).1 this
        rw [if_pos hid, if_pos ⟨hbx ▸ hco, hbx ▸ ht⟩]
        rfl
      · have hbr : b ∈ rest := by
          rcases List.mem_cons.mp hb with hbx | hbr
          · exact absurd (hbx ▸ hbid) hid
          · exact hbr
        have := ih (List.nodup_cons.mp (by simpa using hids)).2 ⟨b, hbr, hbid, hco, ht⟩
        rw [if_neg hid]
        obtain ⟨p, hp⟩ := Option.isSome_iff_exists.mp this
        obtain ⟨rest2, room⟩ := p
        rw [hp]
        rfl

theorem check_out_flag (s : HotelManager) (bid : Nat) (t : Int)
    (reason : String) (notes : Option String) :
    (s.check_out bid t reason notes).2 =
      (checkOutList s.bookings bid t reason notes).isSome := by
  rw [HotelManager.check_out]
  cases h : checkOutList s.bookings bid t reason notes with
  | none => rfl
  | some p => obtain ⟨bs2, room⟩ := p; rfl

theorem check_out_of_none {s : HotelManager} {bid : Nat} {t : Int}
    {reason : String} {notes : Option String}
    (h : checkOutList s.bookings bid t reason notes = none) :
    s.check_out bid t reason notes = (s, false) := by
  rw [HotelManager.check_out, h]

theorem check_out_of_some {s : HotelManager} {bid : Nat} {t : Int}
    {reason : String} {notes : Option String} {bs2 : List Booking} {room : Nat}
    (h : checkOutList s.bookings bid t reason notes = some (bs2, room)) :
    s.check_out bid t reason notes =
      ({ s with bookings := bs2,
                available_rooms := s.available_rooms ++ [room] }, true) := by
  rw [HotelManager.check_out, h]

/-! ## Claim theorems -/

/-- C5: deserializing the serialized record of any Booking — whatever
combination of set or absent `check_out`, `checkout_reason`,
`checkout_notes` and any `is_paid` flag — succeeds and yields a Booking
equal field-for-field to the original. -/
theorem booking_roundtrip (b : Booking) :
    Booking.from_dict (Booking.to_dict b) = some b := rfl

/-- C8: `get_total_guests` equals the sum of `num_guests` over exactly
the bookings whose `check_out` is unset. -/
theorem total_guests_spec (s : HotelManager) :
    s.get_total_guests =
      ((s.bookings.filter (fun b => decide (b.check_out = none))).map
        (fun b => b.num_guests)).sum := by
  show ((s.bookings.filter (fun b => b.check_out.isNone)).map
      (fun b => b.num_guests)).sum = _
  congr 1
  apply congrArg
  exact List.filter_congr (fun b _ => by cases b.check_out <;> rfl)

/-- A sample reachable state: one current booking (id 1, room 1,
2 guests, check-in time 0). -/
def sampleState : HotelManager := step initHotelManager (Op.checkIn 2 0 1 false)

/-- C3: `check_out` returns true iff some booking has the given id with
unset `check_out` and a checkout time strictly after its check-in; on
success the matched booking's `check_out`, `checkout_reason` and
`checkout_notes` are set and its room id appended to the available
list; in every other case it returns false with the state unchanged
(the code raises no exception: the operation is a total function). -/
theorem check_out_spec (s : HotelManager) (bid : Nat) (t : Int)
    (reason : String) (notes : Option String)
    (hids : (s.bookings.map Booking.booking_id).Nodup) :
    ((s.check_out bid t reason notes).2 = true ↔
      ∃ b ∈ s.bookings, b.booking_id = bid ∧ b.check_out = none ∧
        t > b.check_in) ∧
    ((s.check_out bid t reason notes).2 = false →
      s.check_out bid t reason notes = (s, false)) ∧
    ((s.check_out bid t reason notes).2 = true →
      ∃ pre b suf, s.bookings = pre ++ b :: suf ∧
        b.booking_id = bid ∧ b.check_out = none ∧ t > b.check_in ∧
        s.check_out bid t reason notes =
          ({ s with
             bookings := pre ++ checkoutUpdate b t reason notes :: suf
             available_rooms := s.available_rooms ++ [b.room_id] }, true)) := by
  refine ⟨?_, ?_, ?_⟩
  · rw [check_out_flag]
    exact checkOutList_isSome_iff hids
  · intro h
    cases hrec : checkOutList s.bookings bid t reason notes with
    | none => exact check_out_of_none hrec
    | some p =>
      rw [check_out_flag, hrec] at h
      simp at h
  · intro h
    rw [check_out_flag] at h
    obtain ⟨p, hp⟩ := Option.isSome_iff_exists.mp h
    obtain ⟨bs2, room⟩ := p
    obtain ⟨pre, b, suf, hbs, hbs2, hpre, hbid, hco, ht, hroom⟩ :=
      checkOutList_eq_some hp
    exact ⟨pre, b, suf, hbs, hbid, hco, ht,
      by rw [check_out_of_some hp, hbs2, hroom]⟩

/-- Witness for C3: at the one-booking sample state, checking out
booking 1 at time 5 succeeds, while checking out the missing booking 2
fails and leaves the state unchanged. -/
theorem check_out_spec_witness :
    (sampleState.check_out 1 5 "Normal" none).2 = true ∧
    sampleState.check_out 2 5 "Normal" none = (sampleState, false) :=
  ⟨((check_out_spec sampleState 1 5 "Normal" none (by decide)).1).mpr
      (by decide),
   (check_out_spec sampleState 2 5 "Normal" none (by decide)).2.1
      (by decide)⟩

/-- C4: on a state whose available and maintenance lists are disjoint
(the room-pool invariant), `check_in` with a room id not in the
available list fails with the `RoomUnavailable` error and, since the
exception is raised before any mutation, the state is unchanged; with
an available room id it succeeds, appending a booking with
id `next_id`, erasing the room from the available list and
incrementing `next_id`. -/
theorem check_in_spec (s : HotelManager) (g : Nat) (t : Int) (room : Nat)
    (paid : Bool)
    (hdisj : ∀ x ∈ s.available_rooms, x ∉ s.maintenance_rooms) :
    (room ∉ s.available_rooms →
      s.check_in g t room paid = Except.error "Room ID is not available." ∧
      step s (Op.checkIn g t room paid) = s) ∧
    (room ∈ s.available_rooms →
      s.check_in g t room paid = Except.ok
        { s with
          bookings := s.bookings ++
            [{ booking_id := s.next_id
               check_in := t
               check_out := none
               num_guests := g
               room_id := room
               is_paid := paid
               checkout_reason := none
               checkout_notes := none }]
          available_rooms := s.available_rooms.erase room
          next_id := s.next_id + 1 }) := by
  constructor
  · intro hroom
    have hcond : room ∉ s.available_rooms ∨ room ∈ s.maintenance_rooms :=
      Or.inl hroom
    refine ⟨by rw [HotelManager.check_in, if_pos hcond], ?_⟩
    simp only [step, HotelManager.check_in, if_pos hcond]
  · intro hroom
    have hcond : ¬(room ∉ s.available_rooms ∨ room ∈ s.maintenance_rooms) := by
      rintro (h | h)
      · exact h hroom
      · exact hdisj room hroom h
    rw [HotelManager.check_in, if_neg hcond]

/-- Witness for C4: from the initial state, checking in to room 51
(outside the universe, hence not available) is rejected with the error
and no state change; checking in to room 1 succeeds. -/
theorem check_in_spec_witness :
    (initHotelManager.check_in 2 0 51 false =
      Except.error "Room ID is not available." ∧
     step initHotelManager (Op.checkIn 2 0 51 false) = initHotelManager) ∧
    initHotelManager.check_in 2 0 1 false = Except.ok
      { initHotelManager with
        bookings := [{ booking_id := 1
                       check_in := 0
                       check_out := none
                       num_guests := 2
                       room_id := 1
                       is_paid := false
                       checkout_reason := none
                       checkout_notes := none }]
        available_rooms := (List.range' 1 50).erase 1
        next_id := 2 } :=
  ⟨(check_in_spec initHotelManager 2 0 51 false (by decide)).1 (by decide),
   (check_in_spec initHotelManager 2 0 1 false (by decide)).2 (by decide)⟩

/-- C6: from any state whose bookings all have ids below the counter
(the ledger invariant) and an available room disjoint from maintenance,
a `check_in` on that room followed immediately by a `check_out` of the
created booking at a strictly later time succeeds, puts the room back
in the available list, and leaves the maintenance list exactly as
before the two operations. -/
theorem check_in_check_out_roundtrip (s : HotelManager) (g : Nat)
    (t t2 : Int) (room : Nat) (paid : Bool) (reason : String)
    (notes : Option String)
    (hroom : room ∈ s.available_rooms)
    (hmaint : room ∉ s.maintenance_rooms)
    (hfresh : ∀ b ∈ s.bookings, b.booking_id ≠ s.next_id)
    (ht : t2 > t) :
    ∃ s2, s.check_in g t room paid = Except.ok s2 ∧
      (s2.check_out s.next_id t2 reason notes).2 = true ∧
      room ∈ (s2.check_out s.next_id t2 reason notes).1.available_rooms ∧
      (s2.check_out s.next_id t2 reason notes).1.maintenance_rooms =
        s.maintenance_rooms := by
  have hcond : ¬(room ∉ s.available_rooms ∨ room ∈ s.maintenance_rooms) := by
    rintro (h | h)
    · exact h hroom
    · exact hmaint h
  have hfound : checkOutList
      (s.bookings ++ [⟨s.next_id, t, none, g, room, paid, none, none⟩])
      s.next_id t2 reason notes =
      some (s.bookings ++
        [checkoutUpdate ⟨s.next_id, t, none, g, room, paid, none, none⟩
          t2 reason notes], room) :=
    checkOutList_found [] reason notes hfresh rfl rfl ht
  have hres : ({ s with
      bookings := s.bookings ++ [⟨s.next_id, t, none, g, room, paid, none, none⟩]
      available_rooms := s.available_rooms.erase room
      next_id := s.next_id + 1 } : HotelManager).check_out
        s.next_id t2 reason notes =
      ({ s with
         bookings := s.bookings ++
           [checkoutUpdate ⟨s.next_id, t, none, g, room, paid, none, none⟩
             t2 reason notes]
         available_rooms := s.available_rooms.erase room ++ [room]
         next_id := s.next_id + 1 }, true) :=
    check_out_of_some hfound
  refine ⟨_, by rw [HotelManager.check_in, if_neg hcond], ?_, ?_, ?_⟩
  · rw [hres]
  · rw [hres]
    exact List.mem_append_right _ (List.mem_singleton.mpr rfl)
  · rw [hres]

/-- Witness for C6: from the initial state, check in 2 guests to room 1
at time 0 and immediately check the created booking out at time 5. -/
theorem check_in_check_out_roundtrip_witness :
    ∃ s2, initHotelManager.check_in 2 0 1 false = Except.ok s2 ∧
      (s2.check_out initHotelManager.next_id 5 "Normal" none).2 = true ∧
      1 ∈ (s2.check_out initHotelManager.next_id 5 "Normal" none).1.available_rooms ∧
      (s2.check_out initHotelManager.next_id 5 "Normal" none).1.maintenance_rooms =
        initHotelManager.maintenance_rooms :=
  check_in_check_out_roundtrip initHotelManager 2 0 5 1 false "Normal" none
    (by decide) (by decide) (by decide) (by decide)

end HotelApp

namespace HotelApp

/-- C7: `clear_checked_out_bookings` removes from the ledger exactly the
bookings whose `check_out` is set and returns their number; the
subsequence of bookings with unset `check_out` is kept unchanged in
count, content and relative order, and all other state fields are
untouched. -/
theorem clear_checked_out_spec (s : HotelManager) :
    s.clear_checked_out_bookings =
      ({ s with bookings := s.bookings.filter (fun b => b.check_out.isNone) },
       (s.bookings.filter (fun b => b.check_out.isSome)).length) := by
  have h := clear_bookings_eq s
  calc s.clear_checked_out_bookings
      = ({ s with bookings := (s.clear_checked_out_bookings).1.bookings },
         (s.bookings.filter (fun b => b.check_out.isSome)).length) := rfl
    _ = _ := by rw [h]

/-! ## The room-partition invariant -/

theorem occOf_append (l1 l2 : List Booking) :
    occOf (l1 ++ l2) = occOf l1 ++ occOf l2 := by
  simp [occOf]

theorem occOf_cons_current {b : Booking} (hb : b.check_out = none)
    (l : List Booking) : occOf (b :: l) = b.room_id :: occOf l := by
  simp [occOf, List.filter_cons, hb]

theorem occOf_cons_out {b : Booking} {t : Int} (hb : b.check_out = some t)
    (l : List Booking) : occOf (b :: l) = occOf l := by
  simp [occOf, List.filter_cons, hb]

theorem occOf_filter_current (bs : List Booking) :
    occOf (bs.filter (fun b => b.check_out.isNone)) = occOf bs := by
  simp [occOf, List.filter_filter]

/-- The inductive state invariant of the manager: the three room lists
are duplicate-free and pairwise disjoint, together they cover exactly
the universe 1..50, and every booking id is below the counter with no
two bookings sharing an id. -/
structure Inv (s : HotelManager) : Prop where
  avail_nodup : s.available_rooms.Nodup
  maint_nodup : s.maintenance_rooms.Nodup
  occ_nodup : (occOf s.bookings).Nodup
  avail_maint : ∀ r ∈ s.available_rooms, r ∉ s.maintenance_rooms
  avail_occ : ∀ r ∈ s.available_rooms, r ∉ occOf s.bookings
  maint_occ : ∀ r ∈ s.maintenance_rooms, r ∉ occOf s.bookings
  cover : ∀ r, (r ∈ s.available_rooms ∨ r ∈ s.maintenance_rooms ∨
    r ∈ occOf s.bookings) ↔ (1 ≤ r ∧ r ≤ 50)
  ids_lt : ∀ i ∈ s.bookings.map Booking.booking_id, i < s.next_id
  ids_nodup : (s.bookings.map Booking.booking_id).Nodup

theorem inv_init : Inv initHotelManager := by
  refine ⟨?_, List.nodup_nil, List.nodup_nil, ?_, ?_, ?_, ?_, ?_, List.nodup_nil⟩
  · exact List.nodup_range' 1 50
  · intro r _ hr
    exact absurd hr (List.not_mem_nil r)
  · intro r _ hr
    exact absurd hr (List.not_mem_nil r)
  · intro r hr
    exact absurd hr (List.not_mem_nil r)
  · intro r
    show r ∈ List.range' 1 50 ∨ r ∈ ([] : List Nat) ∨ r ∈ occOf [] ↔ _
    simp only [List.mem_range'_1, List.not_mem_nil, or_false,
      show occOf [] = [] from rfl]
    omega
  · intro i hi
    exact absurd hi (List.not_mem_nil i)

theorem inv_check_in (s : HotelManager) (hInv : Inv s) (g : Nat) (t : Int)
    (room : Nat) (paid : Bool) : Inv (step s (Op.checkIn g t room paid)) := by
  by_cases hcond : room ∉ s.available_rooms ∨ room ∈ s.maintenance_rooms
  · simpa only [step, HotelManager.check_in, if_pos hcond] using hInv
  · have hroom : room ∈ s.available_rooms := by
      by_contra h
      exact hcond (Or.inl h)
    have hstep : step s (Op.checkIn g t room paid) =
        { s with
          bookings := s.bookings ++ [⟨s.next_id, t, none, g, room, paid, none, none⟩]
          available_rooms := s.available_rooms.erase room
          next_id := s.next_id + 1 } := by
      simp only [step, HotelManager.check_in, if_neg hcond]
    rw [hstep]
    have hocc : occOf
        (s.bookings ++ [⟨s.next_id, t, none, g, room, paid, none, none⟩]) =
        occOf s.bookings ++ [room] := by
      rw [occOf_append, occOf_cons_current rfl]
      rfl
    have hroom_nocc : room ∉ occOf s.bookings := hInv.avail_occ room hroom
    refine ⟨?_, hInv.maint_nodup, ?_, ?_, ?_, ?_, ?_, ?_, ?_⟩
    · exact hInv.avail_nodup.erase room
    · show (occOf (s.bookings ++ _)).Nodup
      rw [hocc, List.nodup_append]
      exact ⟨hInv.occ_nodup, List.nodup_singleton room,
        fun a ha hb => hroom_nocc ((List.mem_singleton.mp hb) ▸ ha)⟩
    · intro r hr
      exact hInv.avail_maint r (List.mem_of_mem_erase hr)
    · intro r hr
      show r ∉ occOf (s.bookings ++ _)
      rw [hocc]
      have hr2 := (hInv.avail_nodup.mem_erase_iff).mp hr
      intro hmem
      rcases List.mem_append.mp hmem with h1 | h1
      · exact hInv.avail_occ r hr2.2 h1
      · exact hr2.1 (List.mem_singleton.mp h1)
    · intro r hr
      show r ∉ occOf (s.bookings ++ _)
      rw [hocc]
      intro hmem
      rcases List.mem_append.mp hmem with h1 | h1
      · exact hInv.maint_occ r hr h1
      · exact hInv.avail_maint room hroom ((List.mem_singleton.mp h1) ▸ hr)
    · intro r
      show r ∈ s.available_rooms.erase room ∨ r ∈ s.maintenance_rooms ∨
        r ∈ occOf (s.bookings ++ _) ↔ _
      rw [hocc, ← hInv.cover r]
      constructor
      · rintro (h | h | h)
        · exact Or.inl (List.mem_of_mem_erase h)
        · exact Or.inr (Or.inl h)
        · rcases List.mem_append.mp h with h1 | h1
          · exact Or.inr (Or.inr h1)
          · exact Or.inl ((List.mem_singleton.mp h1) ▸ hroom)
      · rintro (h | h | h)
        · by_cases hrr : r = room
          · exact Or.inr (Or.inr (List.mem_append_right _ (by simp [hrr])))
          · exact Or.inl (hInv.avail_nodup.mem_erase_iff.mpr ⟨hrr, h⟩)
        · exact Or.inr (Or.inl h)
        · exact Or.inr (Or.inr (List.mem_append_left _ h))
    · intro i hi
      show i < s.next_id + 1
      rw [List.map_append] at hi
      rcases List.mem_append.mp hi with h1 | h1
      · exact Nat.lt_succ_of_lt (hInv.ids_lt i h1)
      · have heq : i = s.next_id := by simpa using h1
        omega
    · show ((s.bookings ++ _).map Booking.booking_id).Nodup
      rw [List.map_append, List.nodup_append]
      refine ⟨hInv.ids_nodup, ?_, ?_⟩
      · exact List.nodup_singleton _
      · intro a ha hb
        have heq : a = s.next_id := by simpa using hb
        have h2 := hInv.ids_lt a ha
        rw [heq] at h2
        exact Nat.lt_irrefl _ h2

theorem inv_check_out (s : HotelManager) (hInv : Inv s) (bid : Nat) (t : Int)
    (reason : String) (notes : Option String) :
    Inv (step s (Op.checkOut bid t reason notes)) := by
  cases hrec : checkOutList s.bookings bid t reason notes with
  | none =>
    have hstep : step s (Op.checkOut bid t reason notes) = s := by
      simp only [step, check_out_of_none hrec]
    rw [hstep]
    exact hInv
  | some p =>
    obtain ⟨bs2, room⟩ := p
    have hstep : step s (Op.checkOut bid t reason notes) =
        { s with bookings := bs2
                 available_rooms := s.available_rooms ++ [room] } := by
      simp only [step, check_out_of_some hrec]
    rw [hstep]
    obtain ⟨pre, b, suf, hbs, hbs2, hpre, hbid, hco, ht, hroom⟩ :=
      checkOutList_eq_some hrec
    have hocc_old : occOf s.bookings = occOf pre ++ b.room_id :: occOf suf := by
      rw [hbs, occOf_append, occOf_cons_current hco]
    have hocc_new : occOf bs2 = occOf pre ++ occOf suf := by
      rw [hbs2, occOf_append, occOf_cons_out (t := t) rfl]
    have hsub : List.Sublist (occOf bs2) (occOf s.bookings) := by
      rw [hocc_old, hocc_new]
      exact List.Sublist.append_left (List.sublist_cons_self _ _) _
    have hnodup_old := hInv.occ_nodup
    rw [hocc_old] at hnodup_old
    obtain ⟨hA, hrB, hdisjAB⟩ := List.nodup_append.mp hnodup_old
    have hrA : b.room_id ∉ occOf pre :=
      fun h => hdisjAB h (List.mem_cons_self _ _)
    have hrBmem : b.room_id ∉ occOf suf := (List.nodup_cons.mp hrB).1
    have hroom_occ : room ∈ occOf s.bookings := by
      rw [hocc_old, hroom]
      exact List.mem_append_right _ (List.mem_cons_self _ _)
    have hroom_avail : room ∉ s.available_rooms :=
      fun h => hInv.avail_occ room h hroom_occ
    have hroom_maint : room ∉ s.maintenance_rooms :=
      fun h => hInv.maint_occ room h hroom_occ
    have hroom_new : room ∉ occOf bs2 := by
      rw [hocc_new, hroom]
      intro hmem
      rcases List.mem_append.mp hmem with h1 | h1
      · exact hrA h1
      · exact hrBmem h1
    have hsubmem : ∀ r, r ∈ occOf bs2 → r ∈ occOf s.bookings :=
      fun r hr => hsub.subset hr
    have hids : bs2.map Booking.booking_id = s.bookings.map Booking.booking_id := by
      rw [hbs, hbs2]
      simp [checkoutUpdate]
    refine ⟨?_, hInv.maint_nodup, ?_, ?_, ?_, ?_, ?_, ?_, ?_⟩
    · show (s.available_rooms ++ [room]).Nodup
      rw [List.nodup_append]
      exact ⟨hInv.avail_nodup, List.nodup_singleton room,
        fun a ha hb => hroom_avail ((List.mem_singleton.mp hb) ▸ ha)⟩
    · exact hInv.occ_nodup.sublist hsub
    · intro r hr
      rcases List.mem_append.mp hr with h1 | h1
      · exact hInv.avail_maint r h1
      · exact (List.mem_singleton.mp h1) ▸ hroom_maint
    · intro r hr
      rcases List.mem_append.mp hr with h1 | h1
      · exact fun hmem => hInv.avail_occ r h1 (hsubmem r hmem)
      · exact (List.mem_singleton.mp h1) ▸ hroom_new
    · intro r hr
      exact fun hmem => hInv.maint_occ r hr (hsubmem r hmem)
    · intro r
      show r ∈ s.available_rooms ++ [room] ∨ r ∈ s.maintenance_rooms ∨
        r ∈ occOf bs2 ↔ _
      rw [← hInv.cover r]
      constructor
      · rintro (h | h | h)
        · rcases List.mem_append.mp h with h1 | h1
          · exact Or.inl h1
          · exact Or.inr (Or.inr ((List.mem_singleton.mp h1) ▸ hroom_occ))
        · exact Or.inr (Or.inl h)
        · exact Or.inr (Or.inr (hsubmem r h))
      · rintro (h | h | h)
        · exact Or.inl (List.mem_append_left _ h)
        · exact Or.inr (Or.inl h)
        · rw [hocc_old] at h
          rcases List.mem_append.mp h with h1 | h1
          · exact Or.inr (Or.inr
              (by rw [hocc_new]; exact List.mem_append_left _ h1))
          · rcases List.mem_cons.mp h1 with h2 | h2
            · exact Or.inl (List.mem_append_right _ (by simp [h2, hroom]))
            · exact Or.inr (Or.inr
                (by rw [hocc_new]; exact List.mem_append_right _ h2))
    · intro i hi
      show i < s.next_id
      rw [hids] at hi
      exact hInv.ids_lt i hi
    · show (bs2.map Booking.booking_id).Nodup
      rw [hids]
      exact hInv.ids_nodup

theorem inv_maintain (s : HotelManager) (hInv : Inv s) (room : Nat) :
    Inv (step s (Op.maintain room)) := by
  by_cases hroom : room ∈ s.available_rooms
  · have hstep : step s (Op.maintain room) =
        { s with available_rooms := s.available_rooms.erase room
                 maintenance_rooms := s.maintenance_rooms ++ [room] } := by
      simp only [step, HotelManager.mark_room_under_maintenance, if_pos hroom]
    rw [hstep]
    have hroom_maint : room ∉ s.maintenance_rooms := hInv.avail_maint room hroom
    have hroom_occ : room ∉ occOf s.bookings := hInv.avail_occ room hroom
    refine ⟨?_, ?_, hInv.occ_nodup, ?_, ?_, ?_, ?_, hInv.ids_lt, hInv.ids_nodup⟩
    · exact hInv.avail_nodup.erase room
    · rw [List.nodup_append]
      exact ⟨hInv.maint_nodup, List.nodup_singleton room,
        fun a ha hb => hroom_maint ((List.mem_singleton.mp hb) ▸ ha)⟩
    · intro r hr
      have hr2 := hInv.avail_nodup.mem_erase_iff.mp hr
      intro hmem
      rcases List.mem_append.mp hmem with h1 | h1
      · exact hInv.avail_maint r hr2.2 h1
      · exact hr2.1 (List.mem_singleton.mp h1)
    · intro r hr
      exact hInv.avail_occ r (List.mem_of_mem_erase hr)
    · intro r hr
      rcases List.mem_append.mp hr with h1 | h1
      · exact hInv.maint_occ r h1
      · exact (List.mem_singleton.mp h1) ▸ hroom_occ
    · intro r
      show r ∈ s.available_rooms.erase room ∨
        r ∈ s.maintenance_rooms ++ [room] ∨ r ∈ occOf s.bookings ↔ _
      rw [← hInv.cover r]
      constructor
      · rintro (h | h | h)
        · exact Or.inl (List.mem_of_mem_erase h)
        · rcases List.mem_append.mp h with h1 | h1
          · exact Or.inr (Or.inl h1)
          · exact Or.inl ((List.mem_singleton.mp h1) ▸ hroom)
        · exact Or.inr (Or.inr h)
      · rintro (h | h | h)
        · by_cases hrr : r = room
          · exact Or.inr (Or.inl (List.mem_append_right _ (by simp [hrr])))
          · exact Or.inl (hInv.avail_nodup.mem_erase_iff.mpr ⟨hrr, h⟩)
        · exact Or.inr (Or.inl (List.mem_append_left _ h))
        · exact Or.inr (Or.inr h)
  · have hstep : step s (Op.maintain room) = s := by
      simp only [step, HotelManager.mark_room_under_maintenance, if_neg hroom]
    rw [hstep]
    exact hInv

theorem inv_repair (s : HotelManager) (hInv : Inv s) (room : Nat) :
    Inv (step s (Op.repair room)) := by
  by_cases hroom : room ∈ s.maintenance_rooms
  · have hstep : step s (Op.repair room) =
        { s with maintenance_rooms := s.maintenance_rooms.erase room
                 available_rooms := s.available_rooms ++ [room] } := by
      simp only [step, HotelManager.mark_room_repaired, if_pos hroom]
    rw [hstep]
    have hroom_avail : room ∉ s.available_rooms :=
      fun h => hInv.avail_maint room h hroom
    have hroom_occ : room ∉ occOf s.bookings := hInv.maint_occ room hroom
    refine ⟨?_, ?_, hInv.occ_nodup, ?_, ?_, ?_, ?_, hInv.ids_lt, hInv.ids_nodup⟩
    · rw [List.nodup_append]
      exact ⟨hInv.avail_nodup, List.nodup_singleton room,
        fun a ha hb => hroom_avail ((List.mem_singleton.mp hb) ▸ ha)⟩
    · exact hInv.maint_nodup.erase room
    · intro r hr
      rcases List.mem_append.mp hr with h1 | h1
      · intro hmem
        exact hInv.avail_maint r h1 (List.mem_of_mem_erase hmem)
      · rw [List.mem_singleton.mp h1]
        intro hmem
        exact (hInv.maint_nodup.mem_erase_iff.mp hmem).1 rfl
    · intro r hr
      rcases List.mem_append.mp hr with h1 | h1
      · exact hInv.avail_occ r h1
      · exact (List.mem_singleton.mp h1) ▸ hroom_occ
    · intro r hr
      exact hInv.maint_occ r (List.mem_of_mem_erase hr)
    · intro r
      show r ∈ s.available_rooms ++ [room] ∨
        r ∈ s.maintenance_rooms.erase room ∨ r ∈ occOf s.bookings ↔ _
      rw [← hInv.cover r]
      constructor
      · rintro (h | h | h)
        · rcases List.mem_append.mp h with h1 | h1
          · exact Or.inl h1
          · exact Or.inr (Or.inl ((List.mem_singleton.mp h1) ▸ hroom))
        · exact Or.inr (Or.inl (List.mem_of_mem_erase h))
        · exact Or.inr (Or.inr h)
      · rintro (h | h | h)
        · exact Or.inl (List.mem_append_left _ h)
        · by_cases hrr : r = room
          · exact Or.inl (List.mem_append_right _ (by simp [hrr]))
          · exact Or.inr (Or.inl (hInv.maint_nodup.mem_erase_iff.mpr ⟨hrr, h⟩))
        · exact Or.inr (Or.inr h)
  · have hstep : step s (Op.repair room) = s := by
      simp only [step, HotelManager.mark_room_repaired, if_neg hroom]
    rw [hstep]
    exact hInv

theorem inv_clear (s : HotelManager) (hInv : Inv s) : Inv (step s Op.clear) := by
  have hstep : step s Op.clear =
      { s with bookings := s.bookings.filter (fun b => b.check_out.isNone) } := by
    show (s.clear_checked_out_bookings).1 = _
    calc (s.clear_checked_out_bookings).1
        = { s with bookings := (s.clear_checked_out_bookings).1.bookings } := rfl
      _ = _ := by rw [clear_bookings_eq]
  rw [hstep]
  have hocc : occOf (s.bookings.filter (fun b => b.check_out.isNone)) =
      occOf s.bookings := occOf_filter_current s.bookings
  have hids_sub : List.Sublist
      ((s.bookings.filter (fun b => b.check_out.isNone)).map Booking.booking_id)
      (s.bookings.map Booking.booking_id) :=
    (List.filter_sublist _).map _
  refine ⟨hInv.avail_nodup, hInv.maint_nodup, ?_, hInv.avail_maint, ?_, ?_, ?_,
    ?_, ?_⟩
  · show (occOf (s.bookings.filter _)).Nodup
    rw [hocc]
    exact hInv.occ_nodup
  · intro r hr
    show r ∉ occOf (s.bookings.filter _)
    rw [hocc]
    exact hInv.avail_occ r hr
  · intro r hr
    show r ∉ occOf (s.bookings.filter _)
    rw [hocc]
    exact hInv.maint_occ r hr
  · intro r
    show r ∈ s.available_rooms ∨ r ∈ s.maintenance_rooms ∨
      r ∈ occOf (s.bookings.filter _) ↔ _
    rw [hocc]
    exact hInv.cover r
  · intro i hi
    exact hInv.ids_lt i (hids_sub.subset hi)
  · exact hInv.ids_nodup.sublist hids_sub

theorem inv_step (s : HotelManager) (hInv : Inv s) (op : Op) :
    Inv (step s op) := by
  cases op with
  | checkIn g t r p => exact inv_check_in s hInv g t r p
  | checkOut bid t reason notes => exact inv_check_out s hInv bid t reason notes
  | maintain r => exact inv_maintain s hInv r
  | repair r => exact inv_repair s hInv r
  | clear => exact inv_clear s hInv

theorem inv_run (ops : List Op) : Inv (run ops) := by
  suffices h : ∀ (l : List Op) (s : HotelManager), Inv s → Inv (l.foldl step s) by
    exact h ops initHotelManager inv_init
  intro l
  induction l with
  | nil => intro s hs; exact hs
  | cons op l ih => intro s hs; exact ih (step s op) (inv_step s hs op)

/-- C1: after any sequence of check-in, check-out, maintenance, repair
and clear operations from the initial state, a room id is in one of the
available, maintenance or occupied sets exactly when it lies in the
fixed universe 1..50, and the three sets are pairwise disjoint — so
every room of the universe belongs to exactly one of them. -/
theorem room_partition_invariant (ops : List Op) (r : Nat) :
    ((r ∈ (run ops).available_rooms ∨ r ∈ (run ops).maintenance_rooms ∨
        r ∈ (run ops).occupied_rooms) ↔ (1 ≤ r ∧ r ≤ 50)) ∧
    ¬(r ∈ (run ops).available_rooms ∧ r ∈ (run ops).maintenance_rooms) ∧
    ¬(r ∈ (run ops).available_rooms ∧ r ∈ (run ops).occupied_rooms) ∧
    ¬(r ∈ (run ops).maintenance_rooms ∧ r ∈ (run ops).occupied_rooms) := by
  have hInv := inv_run ops
  refine ⟨hInv.cover r, ?_, ?_, ?_⟩
  · rintro ⟨h1, h2⟩
    exact hInv.avail_maint r h1 h2
  · rintro ⟨h1, h2⟩
    exact hInv.avail_occ r h1 h2
  · rintro ⟨h1, h2⟩
    exact hInv.maint_occ r h1 h2

/-! ## Ledger-shape lemmas for the per-booking invariants -/

theorem step_checkIn_bookings (s : HotelManager) (g : Nat) (t : Int)
    (room : Nat) (paid : Bool) :
    (step s (Op.checkIn g t room paid)).bookings = s.bookings ∨
    (step s (Op.checkIn g t room paid)).bookings =
      s.bookings ++ [⟨s.next_id, t, none, g, room, paid, none, none⟩] := by
  by_cases hcond : room ∉ s.available_rooms ∨ room ∈ s.maintenance_rooms
  · left
    simp only [step, HotelManager.check_in, if_pos hcond]
  · right
    simp only [step, HotelManager.check_in, if_neg hcond]

theorem step_checkOut_bookings (s : HotelManager) (bid : Nat) (t : Int)
    (reason : String) (notes : Option String) :
    (step s (Op.checkOut bid t reason notes)).bookings = s.bookings ∨
    ∃ pre b suf, s.bookings = pre ++ b :: suf ∧
      (step s (Op.checkOut bid t reason notes)).bookings =
        pre ++ checkoutUpdate b t reason notes :: suf := by
  cases hrec : checkOutList s.bookings bid t reason notes with
  | none =>
    left
    simp only [step, check_out_of_none hrec]
  | some p =>
    obtain ⟨bs2, room⟩ := p
    obtain ⟨pre, b, suf, hbs, hbs2, _⟩ := checkOutList_eq_some hrec
    right
    refine ⟨pre, b, suf, hbs, ?_⟩
    simp only [step, check_out_of_some hrec]
    exact hbs2

theorem step_maintain_bookings (s : HotelManager) (room : Nat) :
    (step s (Op.maintain room)).bookings = s.bookings := by
  by_cases h : room ∈ s.available_rooms
  · simp only [step, HotelManager.mark_room_under_maintenance, if_pos h]
  · simp only [step, HotelManager.mark_room_under_maintenance, if_neg h]

theorem step_repair_bookings (s : HotelManager) (room : Nat) :
    (step s (Op.repair room)).bookings = s.bookings := by
  by_cases h : room ∈ s.maintenance_rooms
  · simp only [step, HotelManager.mark_room_repaired, if_pos h]
  · simp only [step, HotelManager.mark_room_repaired, if_neg h]

theorem step_clear_bookings (s : HotelManager) :
    (step s Op.clear).bookings =
      s.bookings.filter (fun b => b.check_out.isNone) :=
  clear_bookings_eq s

/-! ## Emergency notes (C9) -/

/-- The discipline the GUI dialog (`EnhancedCheckOutDialog.validate`)
enforces before calling `check_out`: an "Emergency" checkout carries
non-empty notes. -/
def emergencyNotesOk : Op → Bool
  | Op.checkOut _ _ reason notes =>
    if reason = "Emergency" then
      match notes with
      | some txt => decide (txt ≠ "")
      | none => false
    else true
  | _ => true

/-- Every Emergency-reason booking carries non-empty notes. -/
def NotesInv (s : HotelManager) : Prop :=
  ∀ b ∈ s.bookings, b.checkout_reason = some "Emergency" →
    ∃ txt, b.checkout_notes = some txt ∧ txt ≠ ""

theorem notes_inv_step (s : HotelManager) (h : NotesInv s) (op : Op)
    (hop : emergencyNotesOk op = true) : NotesInv (step s op) := by
  cases op with
  | checkIn g t room paid =>
    rcases step_checkIn_bookings s g t room paid with heq | heq
    · intro b hb
      rw [heq] at hb
      exact h b hb
    · intro b hb
      rw [heq] at hb
      rcases List.mem_append.mp hb with h1 | h1
      · exact h b h1
      · intro hreason
        rw [List.mem_singleton.mp h1] at hreason
        exact absurd hreason (by simp)
  | checkOut bid t reason notes =>
    rcases step_checkOut_bookings s bid t reason notes with
      heq | ⟨pre, b0, suf, hbs, heq⟩
    · intro b hb
      rw [heq] at hb
      exact h b hb
    · intro b hb
      rw [heq] at hb
      rcases List.mem_append.mp hb with h1 | h1
      · exact h b (by rw [hbs]; exact List.mem_append_left _ h1)
      · rcases List.mem_cons.mp h1 with h2 | h2
        · intro hreason
          rw [h2] at hreason ⊢
          have hre : reason = "Emergency" := by
            simpa [checkoutUpdate] using hreason
          simp only [emergencyNotesOk, if_pos hre] at hop
          cases hnotes : notes with
          | none =>
            rw [hnotes] at hop
            exact absurd hop (by simp)
          | some txt =>
            rw [hnotes] at hop
            refine ⟨txt, ?_, by simpa using hop⟩
            simp [checkoutUpdate, hnotes]
        · exact h b
            (by rw [hbs]; exact List.mem_append_right _ (List.mem_cons_of_mem _ h2))
  | maintain room =>
    intro b hb
    rw [step_maintain_bookings] at hb
    exact h b hb
  | repair room =>
    intro b hb
    rw [step_repair_bookings] at hb
    exact h b hb
  | clear =>
    intro b hb
    rw [step_clear_bookings] at hb
    exact h b (List.mem_filter.mp hb).1

/-- C9 counterexample: the manager's own `check_out` accepts reason
"Emergency" with absent notes — it performs no notes validation (that
lives in the GUI dialog). Starting from one current booking, the
Emergency checkout with `notes = None` succeeds and the stored booking
has reason "Emergency" and no notes. -/
theorem emergency_notes_counterexample :
    ((run [Op.checkIn 2 0 1 false]).check_out 1 5 "Emergency" none).2 = true ∧
    ((run [Op.checkIn 2 0 1 false]).check_out 1 5 "Emergency" none).1.bookings =
      [⟨1, 0, some 5, 2, 1, false, some "Emergency", none⟩] := by decide

/-- C9 amended: `check_out` itself records whatever notes it is passed;
the non-empty-notes guarantee holds for every state reached through
operation sequences in which each Emergency checkout call carries
non-empty notes — the discipline the check-out dialog enforces. -/
theorem emergency_notes_invariant (ops : List Op)
    (hops : ∀ op ∈ ops, emergencyNotesOk op = true) :
    ∀ b ∈ (run ops).bookings, b.checkout_reason = some "Emergency" →
      ∃ txt, b.checkout_notes = some txt ∧ txt ≠ "" := by
  suffices h : ∀ (l : List Op) (s : HotelManager), NotesInv s →
      (∀ op ∈ l, emergencyNotesOk op = true) → NotesInv (l.foldl step s) by
    exact h ops initHotelManager (fun b hb => absurd hb (List.not_mem_nil b)) hops
  intro l
  induction l with
  | nil =>
    intro s hs _
    exact hs
  | cons op l ih =>
    intro s hs hl
    exact ih (step s op)
      (notes_inv_step s hs op (hl op (List.mem_cons_self _ _)))
      (fun o ho => hl o (List.mem_cons_of_mem _ ho))

/-- Witness for the amended C9: a disciplined Emergency checkout stores
its non-empty notes. -/
theorem emergency_notes_invariant_witness :
    ∃ txt, (⟨1, 0, some 5, 2, 1, false, some "Emergency", some "gas leak"⟩ :
      Booking).checkout_notes = some txt ∧ txt ≠ "" :=
  emergency_notes_invariant
    [Op.checkIn 2 0 1 false, Op.checkOut 1 5 "Emergency" (some "gas leak")]
    (by decide) _ (by decide) (by decide)

/-! ## Positive guest counts (C10) -/

/-- The discipline the check-in dialog enforces (its guest spin box has
minimum 1): each check-in call carries a positive guest count. -/
def guestCountOk : Op → Bool
  | Op.checkIn g _ _ _ => decide (0 < g)
  | _ => true

/-- Every booking in the ledger has a positive guest count. -/
def GuestInv (s : HotelManager) : Prop :=
  ∀ b ∈ s.bookings, 0 < b.num_guests

theorem guest_inv_step (s : HotelManager) (h : GuestInv s) (op : Op)
    (hop : guestCountOk op = true) : GuestInv (step s op) := by
  cases op with
  | checkIn g t room paid =>
    rcases step_checkIn_bookings s g t room paid with heq | heq
    · intro b hb
      rw [heq] at hb
      exact h b hb
    · intro b hb
      rw [heq] at hb
      rcases List.mem_append.mp hb with h1 | h1
      · exact h b h1
      · rw [List.mem_singleton.mp h1]
        simpa [guestCountOk] using hop
  | checkOut bid t reason notes =>
    rcases step_checkOut_bookings s bid t reason notes with
      heq | ⟨pre, b0, suf, hbs, heq⟩
    · intro b hb
      rw [heq] at hb
      exact h b hb
    · intro b hb
      rw [heq] at hb
      rcases List.mem_append.mp hb with h1 | h1
      · exact h b (by rw [hbs]; exact List.mem_append_left _ h1)
      · rcases List.mem_cons.mp h1 with h2 | h2
        · rw [h2]
          have hb0 := h b0
            (by rw [hbs]; exact List.mem_append_right _ (List.mem_cons_self _ _))
          simpa [checkoutUpdate] using hb0
        · exact h b
            (by rw [hbs]; exact List.mem_append_right _ (List.mem_cons_of_mem _ h2))
  | maintain room =>
    intro b hb
    rw [step_maintain_bookings] at hb
    exact h b hb
  | repair room =>
    intro b hb
    rw [step_repair_bookings] at hb
    exact h b hb
  | clear =>
    intro b hb
    rw [step_clear_bookings] at hb
    exact h b (List.mem_filter.mp hb).1

/-- C10 counterexample: the manager's `check_in` performs no guest-count
validation (the dialog's spin box does); it accepts `num_guests = 0`
and creates a booking whose guest count is not positive. -/
theorem guest_count_counterexample :
    initHotelManager.check_in 0 0 1 false =
      Except.ok ⟨[⟨1, 0, none, 0, 1, false, none, none⟩], 2,
        (List.range' 1 50).erase 1, []⟩ := by
  rfl

/-- C10 amended: `check_in` stores the guest count it is given,
unvalidated; every state reached through operation sequences whose
check-ins all carry positive guest counts (the discipline the check-in
dialog enforces) has only bookings with positive guest counts. -/
theorem guest_count_invariant (ops : List Op)
    (hops : ∀ op ∈ ops, guestCountOk op = true) :
    ∀ b ∈ (run ops).bookings, 0 < b.num_guests := by
  suffices h : ∀ (l : List Op) (s : HotelManager), GuestInv s →
      (∀ op ∈ l, guestCountOk op = true) → GuestInv (l.foldl step s) by
    exact h ops initHotelManager (fun b hb => absurd hb (List.not_mem_nil b)) hops
  intro l
  induction l with
  | nil =>
    intro s hs _
    exact hs
  | cons op l ih =>
    intro s hs hl
    exact ih (step s op)
      (guest_inv_step s hs op (hl op (List.mem_cons_self _ _)))
      (fun o ho => hl o (List.mem_cons_of_mem _ ho))

/-- Witness for the amended C10: after a disciplined check-in the stored
booking's guest count is positive. -/
theorem guest_count_invariant_witness :
    0 < (⟨1, 0, none, 2, 1, false, none, none⟩ : Booking).num_guests :=
  guest_count_invariant [Op.checkIn 2 0 1 false] (by decide) _ (by decide)

/-! ## Restoring from a corrupt source (C2) -/

/-- A parsed snapshot holding one malformed booking record: the
required `booking_id` key is missing, so `Booking.from_dict` fails. -/
def corruptFile : DataFile :=
  { next_id? := some 99
    available_rooms? := some []
    maintenance_rooms? := some []
    bookings? := some
      [{ booking_id? := none
         check_in? := some 0
         num_guests? := some 2
         room_id? := some 1
         check_out? := some none
         is_paid? := some false
         checkout_reason? := none
         checkout_notes? := none }] }

theorem load_data_some (s : HotelManager) (d : DataFile) :
    s.load_data (some d) =
      match parseBookings (d.bookings?.getD []) with
      | some bs =>
        ({ s with
           next_id := d.next_id?.getD 1
           available_rooms := d.available_rooms?.getD (List.range' 1 50)
           maintenance_rooms := d.maintenance_rooms?.getD []
           bookings := bs }, true)
      | none =>
        ({ s with
           next_id := d.next_id?.getD 1
           available_rooms := d.available_rooms?.getD (List.range' 1 50)
           maintenance_rooms := d.maintenance_rooms?.getD [] }, false) := by
  cases hm : parseBookings (d.bookings?.getD []) with
  | some bs => simp [HotelManager.load_data, hm]
  | none => simp [HotelManager.load_data, hm]

/-- C2 counterexample: loading a parsed snapshot whose booking list
holds a record missing the required `booking_id` field reports failure,
yet the in-memory state is not left as it was — `next_id`,
`available_rooms` and `maintenance_rooms` were already overwritten with
the file's values before the record parse raised (only `bookings` keeps
its prior value). -/
theorem load_corrupt_counterexample :
    (sampleState.load_data (some corruptFile)).2 = false ∧
    (sampleState.load_data (some corruptFile)).1 ≠ sampleState ∧
    (sampleState.load_data (some corruptFile)).1.next_id = 99 ∧
    sampleState.next_id = 2 ∧
    (sampleState.load_data (some corruptFile)).1.bookings =
      sampleState.bookings := by decide

/-- C2 amended: on any failed load the prior `bookings` list is always
preserved; the whole state is untouched only when the source itself is
unreadable (`none` content), while with parsed content holding a
malformed booking record the three scalar collections take the file's
values (or their defaults) even though `false` is returned. -/
theorem load_failure_spec (s : HotelManager) (content : Option DataFile)
    (h : (s.load_data content).2 = false) :
    (s.load_data content).1.bookings = s.bookings ∧
    (content = none → (s.load_data content).1 = s) ∧
    (∀ d, content = some d →
      (s.load_data content).1 =
        { s with
          next_id := d.next_id?.getD 1
          available_rooms := d.available_rooms?.getD (List.range' 1 50)
          maintenance_rooms := d.maintenance_rooms?.getD [] }) := by
  cases content with
  | none =>
    exact ⟨rfl, fun _ => rfl, fun d hd => absurd hd (by simp)⟩
  | some d =>
    cases hm : parseBookings (d.bookings?.getD []) with
    | some bs => simp [load_data_some, hm] at h
    | none =>
      rw [load_data_some, hm]
      refine ⟨rfl, ?_, ?_⟩
      · intro hc
        exact absurd hc (by simp)
      · intro d2 hd2
        obtain rfl := Option.some.inj hd2
        rfl

/-- Witness for the amended C2: the failed load over the malformed
snapshot leaves the prior bookings list in place. -/
theorem load_failure_spec_witness :
    (sampleState.load_data (some corruptFile)).1.bookings =
      sampleState.bookings :=
  (load_failure_spec sampleState (some corruptFile) (by decide)).1

end HotelApp
